import Mathlib

/-!
Shallow embedding of the watcheth monitoring core (poller/aggregator,
snapshot store, update mailbox, log tail reader) together with proofs of
the behavioural properties claimed by the specification.

File contents are modelled as lists of characters, Go byte-slices and
strings as `List Char`, Go `uint64` as `Nat` with explicit `% 2^64` where
overflow matters, fallible operations as `Except`/`Option`.
-/

namespace Watcheth

/-- Character class used by Go `unicode.IsSpace` for the code points in
Latin-1 (space, tab, newline, vertical tab, form feed, carriage return,
NEL, NBSP); `strings.TrimSpace` strips exactly these from both ends. -/
def isGoSpace (c : Char) : Bool :=
  c == ' ' || c == '\t' || c == '\n' || c == '\r' ||
  c.toNat == 11 || c.toNat == 12 || c.toNat == 133 || c.toNat == 160

/-- Embedding of Go `strings.TrimSpace`: drop the leading and trailing
whitespace of a character list. -/
def trimSpace (s : List Char) : List Char :=
  ((s.dropWhile isGoSpace).reverse.dropWhile isGoSpace).reverse

/-- Embedding of Go `strings.Split(s, "\n")`: the newline-separated fields
of `s`, always at least one field (the empty string splits to one empty
field). -/
def splitLines : List Char → List (List Char)
  | [] => [[]]
  | c :: rest =>
    if c = '\n' then [] :: splitLines rest
    else
      match splitLines rest with
      | [] => [[c]]
      | l :: ls => (c :: l) :: ls

/-- How `splitLines` acts on a concatenation: the last field of the left
part is glued to the first field of the right part. -/
def glueSplit : List (List Char) → List (List Char) → List (List Char)
  | [], ys => ys
  | [x], [] => [x]
  | [x], y :: ys1 => (x ++ y) :: ys1
  | x :: x2 :: xs1, ys => x :: glueSplit (x2 :: xs1) ys

/-- A field of `splitLines s` is turned into a trimmed line if it is
non-blank, and dropped otherwise (this is the body of the prepend loop of
`tailFile`). -/
def cleanLine (l : List Char) : Option (List Char) :=
  if trimSpace l = [] then none else some (trimSpace l)

/-- The trimmed non-blank members of a list of fields. -/
def filterNB (ls : List (List Char)) : List (List Char) :=
  ls.filterMap cleanLine

/-- The trimmed non-blank lines of a file content, in file order.  This is
the reference description of what the backward tail scan collects. -/
def nonblankLines (s : List Char) : List (List Char) :=
  filterNB (splitLines s)

/-- The last `n` elements of a list (all of it when it is shorter). -/
def lastN (n : Nat) (xs : List α) : List α :=
  xs.drop (xs.length - n)

/-- Placeholder line `tailFile` emits for a zero-length file
(logreader.go line 122). -/
def logFileEmptyLine : List Char := "[Log file is empty]".toList

/-- Placeholder line `tailFile` emits when no non-blank line was collected
(logreader.go line 182). -/
def noRecentEntriesLine : List Char := "[No recent log entries]".toList

/-- Inner prepend loop of `tailFile` (logreader.go lines 164-173): walk
the fields of one chunk from the last to the first, trim each one, prepend
it when non-blank, and stop as soon as `n` lines are held.  The first
argument is the chunk's field list reversed, matching the downward index
loop of the source. -/
def collectRev (n : Nat) : List (List Char) → List (List Char) → List (List Char)
  | [], acc => acc
  | l :: rest, acc =>
    if trimSpace l = [] then collectRev n rest acc
    else if n ≤ acc.length + 1 then trimSpace l :: acc
    else collectRev n rest (trimSpace l :: acc)

/-- Outer chunk loop of `tailFile` (logreader.go lines 134-174): starting
at `offset = fileSize`, read `min chunk offset` bytes ending at `offset`,
glue the carried partial first line of the previously read (later) chunk
to its end, split on newlines, save the first field as the new carry when
the file start is not yet reached, and feed the remaining fields to
`collectRev`; stop when `n` lines are held or the offset reaches zero.
`tailFile` always calls this with `0 < chunk`; the `chunk = 0` branch only
makes the recursion well-founded. -/
def tailLoop (content : List Char) (n chunk : Nat) (offset : Nat)
    (lines : List (List Char)) (leftover : List Char) : List (List Char) :=
  if offset = 0 then lines
  else if n ≤ lines.length then lines
  else if chunk = 0 then lines
  else
    let readSize := min chunk offset
    let offset1 := offset - readSize
    let buffer := (content.drop offset1).take readSize ++ leftover
    let cl := splitLines buffer
    if offset1 = 0 then
      tailLoop content n chunk 0 (collectRev n cl.reverse lines) []
    else
      tailLoop content n chunk offset1 (collectRev n cl.tail.reverse lines) (cl.headD [])
termination_by offset
decreasing_by
  · omega
  · omega

/-- Embedding of `tailFile` (logreader.go lines 112-186): last `n`
non-blank lines of a file read backwards in 8 KiB chunks, with placeholder
lines for an empty file and for a file with no non-blank line. -/
def tailFile (content : List Char) (n : Nat) : List (List Char) :=
  let fileSize := content.length
  if fileSize = 0 then [logFileEmptyLine]
  else
    let bufferSize := min 8192 fileSize
    let lines := tailLoop content n bufferSize fileSize [] []
    let lines2 := if n < lines.length then lastN n lines else lines
    if lines2 = [] then [noRecentEntriesLine] else lines2

/-- Embedding of bufio's `dropCR`: remove one trailing carriage return. -/
def dropCR (l : List Char) : List Char :=
  if l.getLast? = some '\r' then l.dropLast else l

/-- Tokens produced by a `bufio.Scanner` with the default `ScanLines`
split function over the whole input: one token per newline found (the text
before it), plus a final token for data after the last newline when that
data is non-empty; each token has one trailing carriage return removed. -/
def scanLines (s : List Char) : List (List Char) :=
  let ps := splitLines s
  (if ps.getLast? = some [] then ps.dropLast else ps).map dropCR

/-- Mutable state of a `fileWatcher` (logwatcher.go lines 40-46): the ring
buffer of recent lines and the last observed file size. -/
structure FileWatcherState where
  buffer : List (List Char)
  lastSize : Nat
deriving DecidableEq

/-- Embedding of `fileWatcher.readNewLines` (logwatcher.go lines 48-130)
for a readable file whose current contents are `content`; returns the
delta lines and the updated state.  The open/stat error paths return the
error and touch nothing, and are outside this embedding.  In the rebuild
branch the source re-tests `fw.lastSize == 0` after the `fw.lastSize =
currentSize` assignment, so that test is written here as
`currentSize = 0`. -/
def readNewLines (bufferSize : Nat) (content : List Char) (fw : FileWatcherState) :
    List (List Char) × FileWatcherState :=
  let currentSize := content.length
  if currentSize < fw.lastSize ∨ fw.lastSize = 0 then
    let lines := tailFile content bufferSize
    if currentSize = 0 then ([], ⟨lines, currentSize⟩)
    else (lines, ⟨lines, currentSize⟩)
  else if currentSize = fw.lastSize then ([], fw)
  else if 0 < currentSize - fw.lastSize then
    let newContent := (content.drop fw.lastSize).take (currentSize - fw.lastSize)
    let newLines := (scanLines newContent).filter (fun l => !l.isEmpty)
    let buffer1 := fw.buffer ++ newLines
    let buffer2 := if bufferSize < buffer1.length then lastN bufferSize buffer1 else buffer1
    (newLines, ⟨buffer2, currentSize⟩)
  else ([], fw)

/-- Refresh model written from the words of claim C3: a pure three-way
case split on sizes, where a grown file contributes only its non-empty
*completed* (newline-terminated) delta lines.  This is the claim side of
the comparison, not the code. -/
def readNewLinesClaim (bufferSize : Nat) (content : List Char) (fw : FileWatcherState) :
    List (List Char) × FileWatcherState :=
  let newSize := content.length
  if newSize < fw.lastSize then
    let lines := tailFile content bufferSize
    (lines, ⟨lines, newSize⟩)
  else if newSize = fw.lastSize then ([], fw)
  else
    let newContent := (content.drop fw.lastSize).take (newSize - fw.lastSize)
    let completed := ((splitLines newContent).dropLast.map dropCR).filter (fun l => !l.isEmpty)
    let buffer1 := fw.buffer ++ completed
    let buffer2 := if bufferSize < buffer1.length then lastN bufferSize buffer1 else buffer1
    (completed, ⟨buffer2, newSize⟩)

/-- Maximum number of log lines kept by the `LogReader`
(logreader.go line 26). -/
def maxLogLines : Nat := 15

/-- State of a `LogReader` (logreader.go lines 29-33): the per-client log
path and per-client cached line window, as association lists. -/
structure LogReaderState where
  logPaths : List (String × String)
  logCache : List (String × List (List Char))

/-- Go map assignment for an association list: replace the binding of `k`
or append a fresh one. -/
def setAssoc (k : String) (v : α) : List (String × α) → List (String × α)
  | [] => [(k, v)]
  | (k1, v1) :: rest => if k1 = k then (k, v) :: rest else (k1, v1) :: setAssoc k v rest

/-- Placeholder line cached when no log path is configured
(logreader.go line 65). -/
def noLogPathLine : List Char := "[No log path configured]".toList

/-- Placeholder line cached when the log file cannot be opened
(logreader.go line 73), carrying the failure reason. -/
def unableReadLine (reason : String) : List Char :=
  "[Unable to read log file: ".toList ++ reason.toList ++ "]".toList

/-- Embedding of `LogReader.ReadLogs` (logreader.go lines 58-92).
`openFile` is the filesystem: the contents of a readable file, or the
failure reason of `os.Open`.  Returns the lines, the returned error (which
the source keeps `nil` on every path) and the updated reader state.  The
source's third placeholder branch, for a `tailFile` I/O failure, has no
counterpart because the embedded `tailFile` is total. -/
def ReadLogs (openFile : String → Except String (List Char))
    (st : LogReaderState) (clientName : String) :
    List (List Char) × Option String × LogReaderState :=
  match st.logPaths.lookup clientName with
  | none =>
    ([noLogPathLine], none, ⟨st.logPaths, setAssoc clientName [noLogPathLine] st.logCache⟩)
  | some logPath =>
    if logPath = "" then
      ([noLogPathLine], none, ⟨st.logPaths, setAssoc clientName [noLogPathLine] st.logCache⟩)
    else
      match openFile logPath with
      | .error e =>
        ([unableReadLine e], none,
          ⟨st.logPaths, setAssoc clientName [unableReadLine e] st.logCache⟩)
      | .ok content =>
        let lines := tailFile content maxLogLines
        (lines, none, ⟨st.logPaths, setAssoc clientName lines st.logCache⟩)

/-- Representation of a Go `float64` field by its bit pattern; the monitor
claims never compute with these values, they are only carried. -/
structure GoFloat64 where
  bits : Nat
deriving DecidableEq

/-- Fields of `consensus.ConsensusNodeInfo`; `uint64` as `Nat`, `error` as
`Option String`, timestamps and durations as `Int` (seconds). -/
structure ConsensusNodeInfo where
  name : String
  endpoint : String
  currentSlot : Nat
  headSlot : Nat
  justifiedSlot : Nat
  finalizedSlot : Nat
  currentEpoch : Nat
  justifiedEpoch : Nat
  finalizedEpoch : Nat
  syncDistance : Nat
  isSyncing : Bool
  isOptimistic : Bool
  elOffline : Bool
  timeToNextSlot : Int
  timeToNextEpoch : Int
  isConnected : Bool
  lastError : Option String
  lastUpdate : Int
  peerCount : Nat
  nodeVersion : String
  currentFork : String
deriving DecidableEq

/-- Go zero value `&consensus.ConsensusNodeInfo{}`. -/
def emptyConsensusNodeInfo : ConsensusNodeInfo :=
  ⟨"", "", 0, 0, 0, 0, 0, 0, 0, 0, false, false, false, 0, 0, false, none, 0, 0, "", ""⟩

/-- Fields of `execution.ExecutionNodeInfo` (execution/types.go). -/
structure ExecutionNodeInfo where
  name : String
  endpoint : String
  currentBlock : Nat
  highestBlock : Nat
  startingBlock : Nat
  isSyncing : Bool
  syncProgress : GoFloat64
  peerCount : Nat
  isConnected : Bool
  lastError : Option String
  lastUpdate : Int
  nodeVersion : String
  chainID : Option Int
  gasPrice : Option Int
  networkID : String
  protocolVersion : String
  blockTime : Int
  lastBlockTime : Int
deriving DecidableEq

/-- Go zero value `&execution.ExecutionNodeInfo{}`. -/
def emptyExecutionNodeInfo : ExecutionNodeInfo :=
  ⟨"", "", 0, 0, 0, false, ⟨0⟩, 0, false, none, 0, "", none, none, "", "", 0, 0⟩

/-- Fields of `validator.ValidatorNodeInfo` (validator/types.go). -/
structure ValidatorNodeInfo where
  name : String
  endpoint : String
  isConnected : Bool
  lastError : Option String
  lastUpdate : Int
  ready : Bool
  attestationMarkSeconds : GoFloat64
  attestationSuccessRate : GoFloat64
  attestationSucceeded : Nat
  attestationFailed : Nat
  blockProposalMarkSeconds : GoFloat64
  blockProposalSuccessRate : GoFloat64
  blockProposalSucceeded : Nat
  blockProposalFailed : Nat
  beaconNodeResponseTime : GoFloat64
  bestBidRelayCount : Nat
  blocksFromRelay : Nat
  relayAuctionDuration : GoFloat64
  relayAuctionCount : Nat
  relayRegistrationSucceeded : Nat
  relayRegistrationFailed : Nat
  relayBuilderBidSucceeded : Nat
  relayBuilderBidFailed : Nat
  relayExecutionConfigSucceeded : Nat
  relayExecutionConfigFailed : Nat
deriving DecidableEq

/-- Go zero value `&validator.ValidatorNodeInfo{}`. -/
def emptyValidatorNodeInfo : ValidatorNodeInfo :=
  ⟨"", "", false, none, 0, false, ⟨0⟩, ⟨0⟩, 0, 0, ⟨0⟩, ⟨0⟩, 0, 0, ⟨0⟩, 0, 0, ⟨0⟩, 0, 0, 0,
    0, 0, 0, 0⟩

/-- The aggregated snapshot published after a cycle (monitor.go lines
108-112).  Entries are `Option`s because the Go arrays hold pointers and a
slot stays `nil` when its goroutine returns before fetching. -/
structure NodeUpdate where
  consensusInfos : List (Option ConsensusNodeInfo)
  executionInfos : List (Option ExecutionNodeInfo)
  validatorInfos : List (Option ValidatorNodeInfo)
deriving DecidableEq

/-- State of a `Monitor` (monitor.go lines 114-126), generic in the three
client types, which the source only ever uses through their `GetNodeInfo`
capability.  `updateChan` is the capacity-one update mailbox
(`make(chan NodeUpdate, 1)`), modelled as a single optional slot. -/
structure MonitorState (κC κE κV : Type) where
  consensusClients : List κC
  executionClients : List κE
  validatorClients : List κV
  refreshInterval : Int
  consensusInfos : List (Option ConsensusNodeInfo)
  executionInfos : List (Option ExecutionNodeInfo)
  validatorInfos : List (Option ValidatorNodeInfo)
  updateChan : Option NodeUpdate

/-- Embedding of `NewMonitor` (monitor.go lines 128-139). -/
def newMonitor (refreshInterval : Int) : MonitorState κC κE κV :=
  ⟨[], [], [], refreshInterval, [], [], [], none⟩

/-- Embedding of `Monitor.AddConsensusClient` (monitor.go lines 141-146):
append the client and a fresh empty placeholder record. -/
def addConsensusClient (m : MonitorState κC κE κV) (c : κC) : MonitorState κC κE κV :=
  { m with consensusClients := m.consensusClients ++ [c],
           consensusInfos := m.consensusInfos ++ [some emptyConsensusNodeInfo] }

/-- Embedding of `Monitor.AddExecutionClient` (monitor.go lines 148-153). -/
def addExecutionClient (m : MonitorState κC κE κV) (c : κE) : MonitorState κC κE κV :=
  { m with executionClients := m.executionClients ++ [c],
           executionInfos := m.executionInfos ++ [some emptyExecutionNodeInfo] }

/-- Embedding of `Monitor.AddValidatorClient` (monitor.go lines 155-160). -/
def addValidatorClient (m : MonitorState κC κE κV) (c : κV) : MonitorState κC κE κV :=
  { m with validatorClients := m.validatorClients ++ [c],
           validatorInfos := m.validatorInfos ++ [some emptyValidatorNodeInfo] }

/-- Non-blocking send on the capacity-one mailbox (the
`select / default` at monitor.go lines 278-281): an occupied slot keeps
its old content and the new message is dropped. -/
def trySend (slot : Option α) (msg : α) : Option α :=
  match slot with
  | none => some msg
  | some old => some old

/-- The goroutines' index-assigned stores into a cycle's result array, in
completion order: each write puts its fetched record at its pre-assigned
index. -/
def applyWrites (ws : List (Nat × α)) (init : List (Option α)) : List (Option α) :=
  ws.foldl (fun acc w => acc.set w.1 (some w.2)) init

/-- The write set one cycle produces when every goroutine fetches: the
goroutine spawned for the i-th registered client writes that client's
fetched record at index i (monitor.go lines 193-213). -/
def canonicalWrites (clients : List κ) (fetch : κ → α) : List (Nat × α) :=
  clients.enum.map (fun p => (p.1, fetch p.2))

/-- Embedding of `Monitor.updateAll` (monitor.go lines 183-282).
`cancelled` models `ctx.Err() != nil` at entry; each `ws` list is the
sequence of index-assigned goroutine writes for one kind, in completion
order (the claims constrain it to a permutation of `canonicalWrites`);
the per-kind result array is allocated at the registered length with every
slot initially nil.  After all writes join, the three arrays are swapped
in and the mailbox receives a non-blocking send. -/
def updateAll (m : MonitorState κC κE κV) (cancelled : Bool)
    (wsC : List (Nat × ConsensusNodeInfo)) (wsE : List (Nat × ExecutionNodeInfo))
    (wsV : List (Nat × ValidatorNodeInfo)) : MonitorState κC κE κV :=
  if cancelled then m
  else
    let consensusResults := applyWrites wsC (List.replicate m.consensusClients.length none)
    let executionResults := applyWrites wsE (List.replicate m.executionClients.length none)
    let validatorResults := applyWrites wsV (List.replicate m.validatorClients.length none)
    { m with consensusInfos := consensusResults,
             executionInfos := executionResults,
             validatorInfos := validatorResults,
             updateChan := trySend m.updateChan
               ⟨consensusResults, executionResults, validatorResults⟩ }

/-- Embedding of `Monitor.GetNodeInfos` (monitor.go lines 284-302); the
defensive copies are identities on immutable lists. -/
def getNodeInfos (m : MonitorState κC κE κV) : NodeUpdate :=
  ⟨m.consensusInfos, m.executionInfos, m.validatorInfos⟩

/-- One externally triggered operation on a monitor: a registration of
either kind, or one `updateAll` cycle with its goroutine write lists. -/
inductive MonOp (κC κE κV : Type) where
  | addC (c : κC)
  | addE (c : κE)
  | addV (c : κV)
  | cycle (cancelled : Bool) (wsC : List (Nat × ConsensusNodeInfo))
      (wsE : List (Nat × ExecutionNodeInfo)) (wsV : List (Nat × ValidatorNodeInfo))

def runOp (m : MonitorState κC κE κV) : MonOp κC κE κV → MonitorState κC κE κV
  | .addC c => addConsensusClient m c
  | .addE c => addExecutionClient m c
  | .addV c => addValidatorClient m c
  | .cycle cancelled wsC wsE wsV => updateAll m cancelled wsC wsE wsV

def runOps (m : MonitorState κC κE κV) (ops : List (MonOp κC κE κV)) :
    MonitorState κC κE κV :=
  ops.foldl runOp m

/-- The three per-kind info arrays are exactly as long as the registries. -/
def kindLengthsMatch (m : MonitorState κC κE κV) : Prop :=
  m.consensusInfos.length = m.consensusClients.length ∧
  m.executionInfos.length = m.executionClients.length ∧
  m.validatorInfos.length = m.validatorClients.length

def witnessFetchC : String → ConsensusNodeInfo :=
  fun c => { emptyConsensusNodeInfo with name := c }

def witnessMonitor : MonitorState String String String :=
  addConsensusClient (addConsensusClient (newMonitor 0) "alpha") "beta"

/-- Largest value of a Go `uint64`, the `^uint64(0)` of
consensus/client.go lines 89 and 92. -/
def maxUint64 : Nat := 2 ^ 64 - 1

/-- Value produced by Go `strconv.ParseUint(s, 10, 64)` when its error is
discarded with `_`: 0 on a syntax error (empty string or a non-digit), the
clamped maximum on a range error, the parsed value otherwise. -/
def parseUint64 (s : String) : Nat :=
  let cs := s.toList
  if cs.isEmpty || !(cs.all Char.isDigit) then 0
  else
    let v := cs.foldl (fun acc c => acc * 10 + (c.toNat - 48)) 0
    if v ≤ maxUint64 then v else maxUint64

/-- Go `strconv.ParseUint(s, 10, 64)` with its error observed: `none` on a
syntax or range error. -/
def parseUint64Checked (s : String) : Option Nat :=
  let cs := s.toList
  if cs.isEmpty || !(cs.all Char.isDigit) then none
  else
    let v := cs.foldl (fun acc c => acc * 10 + (c.toNat - 48)) 0
    if v ≤ maxUint64 then some v else none

/-- Go `strconv.ParseInt(s, 10, 64)` with its error observed: an optional
sign, digits, and the signed 64-bit range check. -/
def parseInt64Checked (s : String) : Option Int :=
  let core := fun (sign : Int) (ds : List Char) =>
    if ds.isEmpty || !(ds.all Char.isDigit) then none
    else
      let v : Int := sign * (ds.foldl (fun acc c => acc * 10 + (c.toNat - 48)) 0 : Nat)
      if -(2 ^ 63) ≤ v ∧ v ≤ 2 ^ 63 - 1 then some v else none
  match s.toList with
  | '+' :: rest => core 1 rest
  | '-' :: rest => core (-1) rest
  | cs => core 1 cs

/-- Fields of `consensus.ChainConfig`: slot timing and the genesis time
(unix seconds). -/
structure ChainConfig where
  secondsPerSlot : Nat
  slotsPerEpoch : Nat
  genesisTime : Int
deriving DecidableEq

/-- Embedding of `ConsensusClient.GetChainConfig` (consensus/client.go
lines 141-188).  `genesis` is the genesis fetch giving the genesis-time
string; `spec` is the spec fetch giving the raw key-value map, where a
`none` value is a JSON value that is not a string (the failed interface
assertion). -/
def getChainConfig (genesis : Except String String)
    (spec : Except String (List (String × Option String))) : Except String ChainConfig :=
  match genesis with
  | .error e => .error e
  | .ok genesisTimeStr =>
    match spec with
    | .error e => .error e
    | .ok specData =>
      match parseInt64Checked genesisTimeStr with
      | none => .error "failed to parse genesis time"
      | some genesisTime =>
        match specData.lookup "SECONDS_PER_SLOT" with
        | some (some secondsPerSlotStr) =>
          match specData.lookup "SLOTS_PER_EPOCH" with
          | some (some slotsPerEpochStr) =>
            match parseUint64Checked secondsPerSlotStr with
            | none => .error "failed to parse SECONDS_PER_SLOT"
            | some secondsPerSlot =>
              if secondsPerSlot = 0 then .error "SECONDS_PER_SLOT cannot be zero"
              else
                match parseUint64Checked slotsPerEpochStr with
                | none => .error "failed to parse SLOTS_PER_EPOCH"
                | some slotsPerEpoch =>
                  if slotsPerEpoch = 0 then .error "SLOTS_PER_EPOCH cannot be zero"
                  else .ok ⟨secondsPerSlot, slotsPerEpoch, genesisTime⟩
          | _ => .error "SLOTS_PER_EPOCH is not a string"
        | _ => .error "SECONDS_PER_SLOT is not a string"

/-- Payload of the syncing endpoint used by `GetNodeInfo`: flags plus the
head-slot and sync-distance decimal strings. -/
structure SyncingData where
  isSyncing : Bool
  isOptimistic : Bool
  headSlot : String
  syncDistance : String
deriving DecidableEq

/-- One finality checkpoint: its epoch decimal string and root. -/
structure Checkpoint where
  epoch : String
  root : String
deriving DecidableEq

/-- Payload of the finality-checkpoints endpoint. -/
structure FinalityData where
  previousJustified : Checkpoint
  currentJustified : Checkpoint
  finalized : Checkpoint
deriving DecidableEq

/-- Outcomes of the HTTP fetches one `GetNodeInfo` call performs, plus the
wall clock; `headers` carries the slot strings of the returned headers.
Timestamps and durations are modelled in whole unix seconds (the source
converts a float-seconds duration through `uint64`, which agrees on whole
seconds). -/
structure NodeEnv where
  genesis : Except String String
  chainSpec : Except String (List (String × Option String))
  syncing : Except String SyncingData
  headers : Except String (List String)
  finality : Except String FinalityData
  peerCount : Except String String
  nodeVersion : Except String String
  fork : Except String String
  nowUnix : Int

/-- Shape of the source's best-effort `if err == nil { info.X = ... }`
updates: apply `f` to a successful fetch's payload, otherwise keep `dflt`. -/
def onOk (x : Except String β) (f : β → α) (dflt : α) : α :=
  match x with
  | .ok b => f b
  | .error _ => dflt

/-- Shape of the source's headers update, guarded by
`err == nil && len(headers.Data) > 0`: apply `f` to the first element of a
successful non-empty fetch, otherwise keep `dflt`. -/
def onOkCons (x : Except String (List β)) (f : β → List β → α) (dflt : α) : α :=
  match x with
  | .ok (b :: rest) => f b rest
  | _ => dflt

/-- Embedding of `ConsensusClient.GetNodeInfo` (consensus/client.go lines
36-139): each failing pre-finality fetch returns a populated record with
`isConnected := false`, the error embedded and a nil Go error; the
post-finality fetches are best-effort and never fail the record. -/
def getNodeInfo (name endpoint : String) (env : NodeEnv) :
    ConsensusNodeInfo × Option String :=
  let info0 : ConsensusNodeInfo :=
    { emptyConsensusNodeInfo with
        name := name, endpoint := endpoint, lastUpdate := env.nowUnix }
  match getChainConfig env.genesis env.chainSpec with
  | .error e => ({ info0 with isConnected := false, lastError := some e }, none)
  | .ok chainConfig =>
    match env.syncing with
    | .error e => ({ info0 with isConnected := false, lastError := some e }, none)
    | .ok syncing =>
      let info1 : ConsensusNodeInfo := { info0 with
        isSyncing := syncing.isSyncing,
        isOptimistic := syncing.isOptimistic,
        headSlot := parseUint64 syncing.headSlot,
        syncDistance := parseUint64 syncing.syncDistance }
      let info2 : ConsensusNodeInfo :=
        onOkCons env.headers
          (fun slotStr _ => { info1 with headSlot := parseUint64 slotStr }) info1
      match env.finality with
      | .error e => ({ info2 with isConnected := false, lastError := some e }, none)
      | .ok finality =>
        let justifiedEpoch := parseUint64 finality.currentJustified.epoch
        let finalizedEpoch := parseUint64 finality.finalized.epoch
        let info3 : ConsensusNodeInfo := { info2 with
          justifiedEpoch := justifiedEpoch, finalizedEpoch := finalizedEpoch }
        let info4 : ConsensusNodeInfo :=
          if 0 < justifiedEpoch ∧ justifiedEpoch ≤ maxUint64 / chainConfig.slotsPerEpoch then
            { info3 with justifiedSlot := justifiedEpoch * chainConfig.slotsPerEpoch % 2 ^ 64 }
          else info3
        let info5 : ConsensusNodeInfo :=
          if 0 < finalizedEpoch ∧ finalizedEpoch ≤ maxUint64 / chainConfig.slotsPerEpoch then
            { info4 with finalizedSlot := finalizedEpoch * chainConfig.slotsPerEpoch % 2 ^ 64 }
          else info4
        let timeSinceGenesis := env.nowUnix - chainConfig.genesisTime
        let info6 : ConsensusNodeInfo :=
          if 0 < timeSinceGenesis then
            let currentSlot := timeSinceGenesis.toNat / chainConfig.secondsPerSlot
            { info5 with currentSlot := currentSlot,
                         currentEpoch := currentSlot / chainConfig.slotsPerEpoch }
          else info5
        let info7 : ConsensusNodeInfo :=
          if 0 < timeSinceGenesis ∧ 0 < info6.currentSlot then
            let timeToNextSlot : Int :=
              Int.ofNat chainConfig.secondsPerSlot -
                Int.ofNat (timeSinceGenesis.toNat % chainConfig.secondsPerSlot)
            let slotsUntilNextEpoch :=
              chainConfig.slotsPerEpoch - info6.currentSlot % chainConfig.slotsPerEpoch
            { info6 with timeToNextSlot := timeToNextSlot,
                         timeToNextEpoch := timeToNextSlot +
                           Int.ofNat ((slotsUntilNextEpoch - 1) * chainConfig.secondsPerSlot) }
          else info6
        let info8 : ConsensusNodeInfo :=
          onOk env.peerCount
            (fun connected => { info7 with peerCount := parseUint64 connected }) info7
        let info9 : ConsensusNodeInfo :=
          onOk env.nodeVersion (fun v => { info8 with nodeVersion := v }) info8
        let info10 : ConsensusNodeInfo :=
          onOk env.fork (fun f => { info9 with currentFork := f }) info9
        ({ info10 with isConnected := true }, none)

/-- Environment in which the very first fetch fails. -/
def witnessEnvErr : NodeEnv :=
  ⟨Except.error "connection refused", Except.error "connection refused",
   Except.error "x", Except.error "x", Except.error "x", Except.error "x",
   Except.error "x", Except.error "x", 0⟩

def witnessChainConfig : ChainConfig := ⟨12, 32, 1606824023⟩

def witnessSyncing : SyncingData := ⟨false, false, "100", "0"⟩

def witnessFinality : FinalityData := ⟨⟨"2", "r"⟩, ⟨"3", "r"⟩, ⟨"2", "r"⟩⟩

/-- Environment in which every fetch succeeds. -/
def witnessEnvOk : NodeEnv :=
  ⟨Except.ok "1606824023",
   Except.ok [("SECONDS_PER_SLOT", some "12"), ("SLOTS_PER_EPOCH", some "32")],
   Except.ok witnessSyncing, Except.ok ["100"], Except.ok witnessFinality,
   Except.ok "25", Except.ok "Lighthouse", Except.ok "0x04000000", 1606824999⟩

theorem splitLines_ne_nil (s : List Char) : splitLines s ≠ [] := by
  induction s with
  | nil => simp [splitLines]
  | cons c rest ih =>
    simp only [splitLines]
    split
    · simp
    · cases h : splitLines rest with
      | nil => simp
      | cons l ls => simp

theorem splitLines_append (a b : List Char) :
    splitLines (a ++ b) = glueSplit (splitLines a) (splitLines b) := by
  induction a with
  | nil =>
    simp only [List.nil_append, splitLines]
    cases h : splitLines b with
    | nil => exact absurd h (splitLines_ne_nil b)
    | cons y ys => simp [glueSplit]
  | cons c rest ih =>
    simp only [List.cons_append, splitLines, List.append_eq]
    rw [ih]
    by_cases hc : c = '\n'
    · rw [if_pos hc, if_pos hc]
      cases h : splitLines rest with
      | nil => exact absurd h (splitLines_ne_nil rest)
      | cons l ls => simp [glueSplit]
    · rw [if_neg hc, if_neg hc]
      cases h : splitLines rest with
      | nil => exact absurd h (splitLines_ne_nil rest)
      | cons l ls =>
        cases ls with
        | nil =>
          cases hb : splitLines b with
          | nil => exact absurd hb (splitLines_ne_nil b)
          | cons y ys => simp [glueSplit]
        | cons l2 ls2 => simp [glueSplit]

theorem glueSplit_cons (xs : List (List Char)) (y : List Char) (rest : List (List Char)) :
    glueSplit xs (y :: rest) = glueSplit xs [y] ++ rest := by
  induction xs with
  | nil => simp [glueSplit]
  | cons x xs1 ih =>
    cases xs1 with
    | nil => simp [glueSplit]
    | cons x2 xs2 => simp [glueSplit, ih]

theorem not_newline_of_mem_splitLines {s : List Char} {l : List Char}
    (h : l ∈ splitLines s) : '\n' ∉ l := by
  induction s generalizing l with
  | nil =>
    simp [splitLines] at h
    simp [h]
  | cons c rest ih =>
    simp only [splitLines] at h
    by_cases hc : c = '\n'
    · rw [if_pos hc] at h
      rcases List.mem_cons.mp h with h1 | h1
      · simp [h1]
      · exact ih h1
    · rw [if_neg hc] at h
      cases hsp : splitLines rest with
      | nil => exact absurd hsp (splitLines_ne_nil rest)
      | cons l0 ls0 =>
        rw [hsp] at h
        rcases List.mem_cons.mp h with h1 | h1
        · subst h1
          intro hmem
          rcases List.mem_cons.mp hmem with h2 | h2
          · exact hc h2.symm
          · exact ih (hsp ▸ List.mem_cons_self l0 ls0) h2
        · exact ih (hsp ▸ List.mem_cons_of_mem l0 h1)

theorem splitLines_of_not_newline {l : List Char} (h : '\n' ∉ l) :
    splitLines l = [l] := by
  induction l with
  | nil => simp [splitLines]
  | cons c rest ih =>
    have hc : c ≠ '\n' := fun heq => h (heq ▸ List.mem_cons_self c rest)
    have hrest : '\n' ∉ rest := fun hmem => h (List.mem_cons_of_mem c hmem)
    simp [splitLines, if_neg hc, ih hrest]

theorem lastN_length (n : Nat) (xs : List α) : (lastN n xs).length = min n xs.length := by
  simp only [lastN, List.length_drop]
  omega

theorem lastN_of_length_le {n : Nat} {xs : List α} (h : xs.length ≤ n) :
    lastN n xs = xs := by
  simp only [lastN]
  have : xs.length - n = 0 := by omega
  simp [this]

theorem lastN_append_right {n : Nat} (xs : List α) {ys : List α} (h : n ≤ ys.length) :
    lastN n (xs ++ ys) = lastN n ys := by
  simp only [lastN, List.length_append]
  have : xs.length + ys.length - n = xs.length + (ys.length - n) := by omega
  rw [this, List.drop_append]

theorem lastN_lastN (n : Nat) (xs : List α) : lastN n (lastN n xs) = lastN n xs := by
  apply lastN_of_length_le
  rw [lastN_length]
  omega

theorem lastN_append_lastN (n : Nat) (xs ys : List α) :
    lastN n (xs ++ lastN n ys) = lastN n (xs ++ ys) := by
  by_cases h : ys.length ≤ n
  · rw [lastN_of_length_le h]
  · have hn : n ≤ ys.length := by omega
    have hlen : n ≤ (lastN n ys).length := by rw [lastN_length]; omega
    rw [lastN_append_right xs hlen, lastN_lastN, lastN_append_right xs hn]

theorem collectRev_spec (n : Nat) (rls : List (List Char)) :
    ∀ acc : List (List Char), acc.length < n →
    collectRev n rls acc = lastN n (filterNB rls.reverse ++ acc) := by
  induction rls with
  | nil =>
    intro acc hacc
    simp only [collectRev, List.reverse_nil, filterNB, List.filterMap_nil, List.nil_append]
    exact (lastN_of_length_le (Nat.le_of_lt hacc)).symm
  | cons l rest ih =>
    intro acc hacc
    simp only [collectRev]
    have hrev : filterNB ((l :: rest).reverse) = filterNB rest.reverse ++ filterNB [l] := by
      simp [filterNB, List.filterMap_append]
    by_cases hblank : trimSpace l = []
    · rw [if_pos hblank, ih acc hacc, hrev]
      have : filterNB [l] = [] := by simp [filterNB, cleanLine, hblank]
      simp [this]
    · rw [if_neg hblank]
      have hfl : filterNB [l] = [trimSpace l] := by simp [filterNB, cleanLine, hblank]
      by_cases hfull : n ≤ acc.length + 1
      · rw [if_pos hfull, hrev, hfl]
        have hlen : (trimSpace l :: acc).length = n := by simp; omega
        have h1 : lastN n (filterNB rest.reverse ++ ([trimSpace l] ++ acc)) =
            lastN n ([trimSpace l] ++ acc) := by
          apply lastN_append_right
          simp; omega
        rw [List.append_assoc, h1]
        have : ([trimSpace l] ++ acc).length ≤ n := by simp; omega
        rw [lastN_of_length_le this]
        simp
      · rw [if_neg hfull]
        have hlt : (trimSpace l :: acc).length < n := by simp; omega
        rw [ih (trimSpace l :: acc) hlt, hrev, hfl]
        simp [List.append_assoc]

theorem headD_cons_tail {l : List α} (d : α) (h : l ≠ []) :
    l.headD d :: l.tail = l := by
  cases l with
  | nil => exact absurd rfl h
  | cons a t => rfl

theorem headD_mem {l : List α} (d : α) (h : l ≠ []) : l.headD d ∈ l := by
  cases l with
  | nil => exact absurd rfl h
  | cons a t => simp

theorem nonblankLines_nil : nonblankLines [] = [] := by
  simp [nonblankLines, splitLines, filterNB, cleanLine, trimSpace]

/-- Chunk-boundary decomposition: the non-blank lines of `pre ++ buffer`
are the non-blank lines of `pre` glued to the first field of `buffer`,
followed by the non-blank remaining fields of `buffer`. -/
theorem nonblankLines_decomp (pre buffer : List Char) :
    nonblankLines (pre ++ buffer) =
      nonblankLines (pre ++ (splitLines buffer).headD []) ++
        filterNB (splitLines buffer).tail := by
  have hne := splitLines_ne_nil buffer
  have hhead : (splitLines buffer).headD [] ∈ splitLines buffer := headD_mem [] hne
  have hnonl : '\n' ∉ (splitLines buffer).headD [] :=
    not_newline_of_mem_splitLines hhead
  have hsingle : splitLines ((splitLines buffer).headD []) =
      [(splitLines buffer).headD []] := splitLines_of_not_newline hnonl
  calc nonblankLines (pre ++ buffer)
      = filterNB (glueSplit (splitLines pre) (splitLines buffer)) := by
        rw [nonblankLines, splitLines_append]
    _ = filterNB (glueSplit (splitLines pre)
          ((splitLines buffer).headD [] :: (splitLines buffer).tail)) := by
        rw [headD_cons_tail [] hne]
    _ = filterNB (glueSplit (splitLines pre) [(splitLines buffer).headD []] ++
          (splitLines buffer).tail) := by
        rw [glueSplit_cons]
    _ = filterNB (glueSplit (splitLines pre) [(splitLines buffer).headD []]) ++
          filterNB (splitLines buffer).tail := by
        simp [filterNB, List.filterMap_append]
    _ = nonblankLines (pre ++ (splitLines buffer).headD []) ++
          filterNB (splitLines buffer).tail := by
        rw [nonblankLines, splitLines_append, hsingle]

/-- Invariant of the backward chunk loop: with `lines` already-collected
final lines and `leftover` the carried partial first line of the later
chunks, the loop returns the last `n` non-blank lines of the unread prefix
followed by the carry and the collected lines. -/
theorem tailLoop_spec (content : List Char) (n chunk : Nat) (hchunk : 0 < chunk) :
    ∀ offset lines leftover,
      offset ≤ content.length → lines.length ≤ n → (offset = 0 → leftover = []) →
      tailLoop content n chunk offset lines leftover =
        lastN n (nonblankLines (content.take offset ++ leftover) ++ lines) := by
  intro offset
  induction offset using Nat.strong_induction_on with
  | _ offset ih =>
    intro lines leftover hoff hlen hzero
    rw [tailLoop]
    by_cases h0 : offset = 0
    · rw [if_pos h0, hzero h0]
      simp only [h0, List.take_zero, List.nil_append, nonblankLines_nil, List.nil_append]
      exact (lastN_of_length_le hlen).symm
    · rw [if_neg h0]
      by_cases hfull : n ≤ lines.length
      · rw [if_pos hfull]
        rw [lastN_append_right _ hfull, lastN_of_length_le hlen]
      · rw [if_neg hfull, if_neg (Nat.pos_iff_ne_zero.mp hchunk)]
        have hrs : 1 ≤ min chunk offset := by omega
        have hsum : (offset - min chunk offset) + min chunk offset = offset := by omega
        have htake : content.take offset =
            content.take (offset - min chunk offset) ++
              (content.drop (offset - min chunk offset)).take (min chunk offset) := by
          conv_lhs => rw [← hsum]
          exact List.take_add content _ _
        by_cases hoff1 : offset - min chunk offset = 0
        · rw [if_pos hoff1]
          rw [tailLoop]
          rw [if_pos rfl]
          rw [collectRev_spec n _ lines (by omega), List.reverse_reverse]
          rw [htake, hoff1]
          simp only [List.take_zero, List.nil_append, List.append_assoc]
          rfl
        · rw [if_neg hoff1]
          have hlt : offset - min chunk offset < offset := by omega
          have hcall := ih (offset - min chunk offset) hlt
            (collectRev n (splitLines ((content.drop (offset - min chunk offset)).take
              (min chunk offset) ++ leftover)).tail.reverse lines)
            ((splitLines ((content.drop (offset - min chunk offset)).take
              (min chunk offset) ++ leftover)).headD [])
            (by omega)
            (by
              rw [collectRev_spec n _ lines (by omega), lastN_length]
              omega)
            (fun habs => absurd habs hoff1)
          rw [hcall]
          rw [collectRev_spec n _ lines (by omega), List.reverse_reverse]
          rw [lastN_append_lastN]
          conv_rhs => rw [htake, List.append_assoc, nonblankLines_decomp, List.append_assoc]

/-- Full characterization of `tailFile`: placeholder for the empty file,
placeholder when no non-blank line is collected, and otherwise the last
`n` trimmed non-blank lines of the file in original order. -/
theorem tailFile_spec (content : List Char) (n : Nat) :
    tailFile content n =
      if content.length = 0 then [logFileEmptyLine]
      else if lastN n (nonblankLines content) = [] then [noRecentEntriesLine]
      else lastN n (nonblankLines content) := by
  by_cases h0 : content.length = 0
  · simp [tailFile, h0]
  · have hchunk : 0 < min 8192 content.length := by omega
    have hloop := tailLoop_spec content n (min 8192 content.length) hchunk
      content.length [] [] le_rfl (by simp) (fun _ => rfl)
    rw [List.take_length, List.append_nil, List.append_nil] at hloop
    simp only [tailFile, if_neg h0]
    rw [hloop]
    have hle : (lastN n (nonblankLines content)).length ≤ n := by
      rw [lastN_length]; omega
    have hnotlt : ¬ n < (lastN n (nonblankLines content)).length := by omega
    rw [if_neg hnotlt]

theorem tailFile_of_empty (n : Nat) : tailFile [] n = [logFileEmptyLine] := by
  simp [tailFile]

theorem tailFile_of_nonblank {content : List Char} {n : Nat}
    (h1 : nonblankLines content ≠ []) (h2 : 1 ≤ n) :
    tailFile content n = lastN n (nonblankLines content) := by
  have hne : content.length ≠ 0 := by
    intro habs
    rw [List.length_eq_zero] at habs
    exact h1 (habs ▸ nonblankLines_nil)
  have hlen : (lastN n (nonblankLines content)).length =
      min n (nonblankLines content).length := lastN_length n _
  have hpos : 0 < (nonblankLines content).length := List.length_pos.mpr h1
  have hnn : lastN n (nonblankLines content) ≠ [] := by
    intro habs
    have hcl := congrArg List.length habs
    rw [hlen] at hcl
    simp only [List.length_nil] at hcl
    omega
  rw [tailFile_spec, if_neg hne, if_neg hnn]

theorem dropWhile_head_false (p : α → Bool) (l : List α) :
    ∀ a, (l.dropWhile p).head? = some a → p a = false := by
  induction l with
  | nil => intro a h; simp [List.dropWhile] at h
  | cons x t ih =>
    intro a h
    by_cases hx : p x
    · rw [List.dropWhile_cons_of_pos hx] at h
      exact ih a h
    · rw [List.dropWhile_cons_of_neg hx] at h
      simp at h
      rw [← h]
      simpa using hx

theorem dropWhile_eq_self_of_head (p : α → Bool) (l : List α)
    (h : ∀ a, l.head? = some a → p a = false) : l.dropWhile p = l := by
  cases l with
  | nil => rfl
  | cons x t =>
    have hx := h x (by simp)
    rw [List.dropWhile_cons_of_neg (by simp [hx])]

theorem head?_of_prefix {l₁ l₂ : List α} (h : l₁ <+: l₂) (hne : l₁ ≠ []) :
    l₂.head? = l₁.head? := by
  rcases h with ⟨t, ht⟩
  cases l₁ with
  | nil => exact absurd rfl hne
  | cons a t1 => rw [← ht]; rfl

/-- Go `strings.TrimSpace` is idempotent. -/
theorem trimSpace_idem (s : List Char) : trimSpace (trimSpace s) = trimSpace s := by
  set p := isGoSpace
  set A := s.dropWhile p with hA
  set B := A.reverse.dropWhile p with hB
  have hts : trimSpace s = B.reverse := rfl
  have hBsuff : B <:+ A.reverse := hB ▸ List.dropWhile_suffix p
  have hBrevpre : B.reverse <+: A :=
    List.reverse_suffix.mp (by simpa using hBsuff)
  have hheadBrev : ∀ a, B.reverse.head? = some a → p a = false := by
    intro a ha
    by_cases hBe : B.reverse = []
    · rw [hBe] at ha; simp at ha
    · have hhd := head?_of_prefix hBrevpre hBe
      have ha2 : A.head? = some a := hhd.trans ha
      exact dropWhile_head_false p s a (hA ▸ ha2)
  have hheadB : ∀ a, B.head? = some a → p a = false :=
    fun a ha => dropWhile_head_false p A.reverse a (hB ▸ ha)
  rw [hts]
  show ((B.reverse.dropWhile p).reverse.dropWhile p).reverse = B.reverse
  rw [dropWhile_eq_self_of_head p B.reverse hheadBrev, List.reverse_reverse,
    dropWhile_eq_self_of_head p B hheadB]

theorem mem_nonblankLines_trimmed {content : List Char} {l : List Char}
    (h : l ∈ nonblankLines content) : trimSpace l = l := by
  rw [nonblankLines, filterNB] at h
  rcases List.mem_filterMap.mp h with ⟨x, _, hx⟩
  rw [cleanLine] at hx
  by_cases hb : trimSpace x = []
  · rw [if_pos hb] at hx; cases hx
  · rw [if_neg hb] at hx
    cases hx
    exact trimSpace_idem x

/-- C2 counterexample: the claim asserts the window equality for all file
sizes including M = 0, but for the empty file `tailFile` returns the
one-element placeholder, not the empty window. -/
theorem claim_C2_counterexample :
    tailFile [] 15 ≠ lastN 15 (nonblankLines []) := by
  rw [tailFile_of_empty, nonblankLines_nil]
  simp [lastN]

/-- C2 (amended): for every file with at least one non-blank line and
every window size N ≥ 1, `tailFile` returns exactly the last
min(M, N) trimmed non-blank lines of the file in original order, where M
counts the non-blank lines; files with M = 0 get a one-element placeholder
instead of the empty window. -/
theorem claim_C2 (content : List Char) (n : Nat)
    (h1 : nonblankLines content ≠ []) (h2 : 1 ≤ n) :
    tailFile content n = lastN n (nonblankLines content) ∧
    (tailFile content n).length = min n (nonblankLines content).length := by
  refine ⟨tailFile_of_nonblank h1 h2, ?_⟩
  rw [tailFile_of_nonblank h1 h2, lastN_length]

theorem claim_C2_witness :
    nonblankLines ("a\n\n  \nb\nc".toList) ≠ [] ∧ (1 : Nat) ≤ 2 ∧
    tailFile ("a\n\n  \nb\nc".toList) 2 = lastN 2 (nonblankLines ("a\n\n  \nb\nc".toList)) := by
  refine ⟨by decide, by decide, ?_⟩
  exact (claim_C2 ("a\n\n  \nb\nc".toList) 2 (by decide) (by decide)).1

/-- C10: `tailFile` never returns an empty list; the empty file yields the
single placeholder line for an empty log, a non-empty file whose lines are
all blank yields the single no-recent-entries placeholder, and every
returned line is whitespace-trimmed. -/
theorem claim_C10 (content : List Char) (n : Nat) :
    tailFile content n ≠ [] ∧
    (content.length = 0 → tailFile content n = [logFileEmptyLine]) ∧
    (content.length ≠ 0 → nonblankLines content = [] →
      tailFile content n = [noRecentEntriesLine]) ∧
    (∀ l ∈ tailFile content n, trimSpace l = l) := by
  rw [tailFile_spec]
  by_cases h0 : content.length = 0
  · rw [if_pos h0]
    refine ⟨by simp, fun _ => rfl, fun habs _ => absurd h0 habs, ?_⟩
    intro l hl
    rw [List.mem_singleton] at hl
    subst hl
    decide
  · rw [if_neg h0]
    by_cases hb : lastN n (nonblankLines content) = []
    · rw [if_pos hb]
      refine ⟨by simp, fun habs => absurd habs h0, fun _ _ => rfl, ?_⟩
      intro l hl
      rw [List.mem_singleton] at hl
      subst hl
      decide
    · rw [if_neg hb]
      refine ⟨hb, fun habs => absurd habs h0, ?_, ?_⟩
      · intro _ hnb
        exact absurd (by rw [hnb]; simp [lastN]) hb
      · intro l hl
        have : l ∈ nonblankLines content := List.mem_of_mem_drop hl
        exact mem_nonblankLines_trimmed this

theorem claim_C10_witness :
    tailFile [] 7 = [logFileEmptyLine] ∧
    tailFile ['\n', ' ', '\n'] 7 = [noRecentEntriesLine] :=
  ⟨(claim_C10 [] 7).2.1 rfl,
    (claim_C10 ['\n', ' ', '\n'] 7).2.2.1 (by decide) (by decide)⟩

theorem tailFile_space_x : tailFile [' ', 'x'] 15 = [['x']] := by
  have h := @tailFile_of_nonblank [' ', 'x'] 15 (by decide) (by decide)
  rw [h]
  decide

/-- C3 counterexample: the code departs from the claimed three-way split
at two concrete inputs.  With a zero baseline (first read) and a grown
file the code rebuilds through the backward tail (trimming the line),
while the claim mandates an incremental append of completed lines; and
for a grown file whose delta has no final newline the code still appends
the trailing incomplete line. -/
theorem claim_C3_counterexample :
    readNewLines 15 [' ', 'x'] ⟨[], 0⟩ ≠ readNewLinesClaim 15 [' ', 'x'] ⟨[], 0⟩ ∧
    readNewLines 15 ['a', '\n', 'b', 'c'] ⟨[['a']], 2⟩ ≠
      readNewLinesClaim 15 ['a', '\n', 'b', 'c'] ⟨[['a']], 2⟩ := by
  constructor
  · have hcode : readNewLines 15 [' ', 'x'] ⟨[], 0⟩ = ([['x']], ⟨[['x']], 2⟩) := by
      simp [readNewLines, tailFile_space_x]
    rw [hcode]
    decide
  · have hcode : readNewLines 15 ['a', '\n', 'b', 'c'] ⟨[['a']], 2⟩ =
        ([['b', 'c']], ⟨[['a'], ['b', 'c']], 4⟩) := by
      simp only [readNewLines]
      decide
    rw [hcode]
    decide

/-- C3 (amended): for every watcher whose stored baseline is positive, one
refresh is the claimed three-way split on sizes, except that the delta of
a grown file consists of all non-empty scanner lines of the newly read
bytes, the trailing not-yet-terminated line included: a shrunk file
rebuilds the buffer through the backward tail and resets the baseline; an
unchanged size is a strict no-op with an empty delta; a grown file reads
exactly the `newSize - oldSize` new bytes from the old offset, appends
their non-empty lines, keeps only the newest `bufferSize` entries, and
advances the baseline. -/
theorem claim_C3 (n : Nat) (content : List Char) (fw : FileWatcherState)
    (hpos : 0 < fw.lastSize) :
    (content.length < fw.lastSize →
      (readNewLines n content fw).2.buffer = tailFile content n ∧
      (readNewLines n content fw).2.lastSize = content.length) ∧
    (content.length = fw.lastSize → readNewLines n content fw = ([], fw)) ∧
    (fw.lastSize < content.length →
      (readNewLines n content fw).1 =
        (scanLines ((content.drop fw.lastSize).take (content.length - fw.lastSize))).filter
          (fun l => !l.isEmpty) ∧
      (readNewLines n content fw).2.buffer =
        lastN n (fw.buffer ++ (readNewLines n content fw).1) ∧
      (readNewLines n content fw).2.lastSize = content.length) := by
  refine ⟨?_, ?_, ?_⟩
  · intro hlt
    rw [readNewLines, if_pos (Or.inl hlt)]
    by_cases h0 : content.length = 0
    · rw [if_pos h0]
      exact ⟨rfl, h0.symm ▸ rfl⟩
    · rw [if_neg h0]
      exact ⟨rfl, rfl⟩
  · intro heq
    have hc1 : ¬ (content.length < fw.lastSize ∨ fw.lastSize = 0) := by omega
    rw [readNewLines, if_neg hc1, if_pos heq]
  · intro hgt
    have hc1 : ¬ (content.length < fw.lastSize ∨ fw.lastSize = 0) := by omega
    have hc2 : content.length ≠ fw.lastSize := by omega
    have hc3 : 0 < content.length - fw.lastSize := by omega
    simp only [readNewLines, if_neg hc1, if_neg hc2, if_pos hc3]
    refine ⟨trivial, ?_, trivial⟩
    split
    · rfl
    · exact (lastN_of_length_le (by omega)).symm

theorem claim_C3_witness :
    (0 : Nat) < 2 ∧ readNewLines 15 ("ab".toList) ⟨[], 2⟩ = ([], ⟨[], 2⟩) := by
  refine ⟨by decide, ?_⟩
  exact (claim_C3 15 ("ab".toList) ⟨[], 2⟩ (by decide)).2.1 (by decide)

theorem readNewLines_lastSize (n : Nat) (content : List Char) (fw : FileWatcherState) :
    (readNewLines n content fw).2.lastSize = content.length := by
  rw [readNewLines]
  by_cases hc1 : content.length < fw.lastSize ∨ fw.lastSize = 0
  · rw [if_pos hc1]
    by_cases h0 : content.length = 0
    · rw [if_pos h0]
    · rw [if_neg h0]
  · rw [if_neg hc1]
    by_cases hc2 : content.length = fw.lastSize
    · rw [if_pos hc2]
      simp [hc2]
    · rw [if_neg hc2]
      have hc3 : 0 < content.length - fw.lastSize := by omega
      rw [if_pos hc3]

theorem readNewLines_of_zero (n : Nat) (content : List Char) (fw : FileWatcherState)
    (h0 : content.length = 0) :
    readNewLines n content fw = ([], ⟨tailFile content n, 0⟩) := by
  have hc1 : content.length < fw.lastSize ∨ fw.lastSize = 0 := by omega
  rw [readNewLines, if_pos hc1, if_pos h0, h0]

/-- C6: a duplicate refresh trigger is an idempotent no-op.  Running
`readNewLines` twice against the same file contents makes the second call
return an empty delta and leave the buffer and the stored baseline exactly
as the first call left them. -/
theorem claim_C6 (n : Nat) (content : List Char) (fw : FileWatcherState) :
    readNewLines n content (readNewLines n content fw).2 =
      ([], (readNewLines n content fw).2) := by
  by_cases h0 : content.length = 0
  · rw [readNewLines_of_zero n content fw h0, readNewLines_of_zero n content _ h0]
  · have hsize := readNewLines_lastSize n content fw
    have hc1 : ¬ (content.length < (readNewLines n content fw).2.lastSize ∨
        (readNewLines n content fw).2.lastSize = 0) := by omega
    conv_lhs => rw [readNewLines]
    rw [if_neg hc1, if_pos hsize.symm]

theorem lookup_setAssoc (k : String) (v : α) (l : List (String × α)) :
    (setAssoc k v l).lookup k = some v := by
  induction l with
  | nil => simp [setAssoc, List.lookup]
  | cons p rest ih =>
    obtain ⟨k1, v1⟩ := p
    by_cases h : k1 = k
    · simp [setAssoc, if_pos h, List.lookup]
    · have hne : (k == k1) = false := by
        simp only [beq_eq_false_iff_ne]
        exact fun habs => h habs.symm
      simp [setAssoc, if_neg h, List.lookup, hne, ih]

/-- C8: `ReadLogs` never returns a non-nil error; when the configured log
file cannot be opened it returns the single synthetic placeholder line
carrying the reason, and caches that placeholder. -/
theorem claim_C8 (openFile : String → Except String (List Char))
    (st : LogReaderState) (clientName : String) :
    (ReadLogs openFile st clientName).2.1 = none ∧
    (∀ logPath e, st.logPaths.lookup clientName = some logPath → logPath ≠ "" →
      openFile logPath = .error e →
      (ReadLogs openFile st clientName).1 = [unableReadLine e] ∧
      (ReadLogs openFile st clientName).2.2.logCache.lookup clientName =
        some [unableReadLine e]) := by
  constructor
  · rw [ReadLogs]
    cases hl : st.logPaths.lookup clientName with
    | none => rfl
    | some logPath =>
      by_cases hp : logPath = ""
      · subst hp; rfl
      · simp only [if_neg hp]
        cases ho : openFile logPath with
        | error e => rfl
        | ok content => rfl
  · intro logPath e hl hp ho
    rw [ReadLogs, hl]
    simp only [if_neg hp]
    rw [ho]
    exact ⟨rfl, lookup_setAssoc clientName [unableReadLine e] st.logCache⟩

theorem claim_C8_witness :
    (ReadLogs (fun _ => Except.error "permission denied")
      ⟨[("geth", "/var/log/geth.log")], []⟩ "geth").2.1 = none ∧
    (ReadLogs (fun _ => Except.error "permission denied")
      ⟨[("geth", "/var/log/geth.log")], []⟩ "geth").1 =
        [unableReadLine "permission denied"] := by
  have h := claim_C8 (fun _ => Except.error "permission denied")
    ⟨[("geth", "/var/log/geth.log")], []⟩ "geth"
  exact ⟨h.1, (h.2 "/var/log/geth.log" "permission denied" rfl (by decide) rfl).1⟩

theorem applyWrites_nil (init : List (Option α)) : applyWrites [] init = init := rfl

theorem applyWrites_cons (w : Nat × α) (rest : List (Nat × α)) (init : List (Option α)) :
    applyWrites (w :: rest) init = applyWrites rest (init.set w.1 (some w.2)) := rfl

theorem applyWrites_length (ws : List (Nat × α)) (init : List (Option α)) :
    (applyWrites ws init).length = init.length := by
  induction ws generalizing init with
  | nil => rfl
  | cons w rest ih => rw [applyWrites_cons, ih, List.length_set]

theorem applyWrites_getElem_of_not_mem (ws : List (Nat × α)) (init : List (Option α))
    (i : Nat) (h : ∀ w ∈ ws, w.1 ≠ i) :
    (applyWrites ws init)[i]? = init[i]? := by
  induction ws generalizing init with
  | nil => rfl
  | cons w rest ih =>
    rw [applyWrites_cons, ih _ (fun u hu => h u (List.mem_cons_of_mem w hu)),
      List.getElem?_set_ne (h w (List.mem_cons_self w rest))]

theorem applyWrites_getElem_of_mem (ws : List (Nat × α)) (init : List (Option α))
    (i : Nat) (v : α) (hmem : (i, v) ∈ ws)
    (hall : ∀ w ∈ ws, w.1 = i → w.2 = v) (hi : i < init.length) :
    (applyWrites ws init)[i]? = some (some v) := by
  induction ws generalizing init with
  | nil => cases hmem
  | cons w rest ih =>
    rw [applyWrites_cons]
    by_cases hrest : ∃ u ∈ rest, u.1 = i
    · obtain ⟨u, hu, hui⟩ := hrest
      have huv : u.2 = v := hall u (List.mem_cons_of_mem w hu) hui
      have hueq : u = (i, v) := by
        obtain ⟨u1, u2⟩ := u
        simp only at hui huv
        rw [hui, huv]
      exact ih (init.set w.1 (some w.2)) (hueq ▸ hu)
        (fun x hx hxi => hall x (List.mem_cons_of_mem w hx) hxi)
        (by rwa [List.length_set])
    · push_neg at hrest
      have hw : w = (i, v) := by
        rcases List.mem_cons.mp hmem with h1 | h1
        · exact h1.symm
        · exact absurd rfl (hrest (i, v) h1)
      rw [applyWrites_getElem_of_not_mem rest _ i hrest, hw]
      rw [List.getElem?_set_self]
      exact hi

theorem mem_canonicalWrites_val {clients : List κ} {fetch : κ → α} {w : Nat × α}
    (h : w ∈ canonicalWrites clients fetch) :
    ∃ c, clients[w.1]? = some c ∧ w.2 = fetch c := by
  rw [canonicalWrites] at h
  rcases List.mem_map.mp h with ⟨p, hp, hpw⟩
  have hp2 : (p.1, p.2) ∈ clients.enum := by simpa using hp
  have hget : clients[p.1]? = some p.2 := List.mk_mem_enum_iff_getElem?.mp hp2
  refine ⟨p.2, ?_, ?_⟩
  · rw [← hpw]
    exact hget
  · rw [← hpw]

theorem canonicalWrites_mem {clients : List κ} {fetch : κ → α} {i : Nat}
    (hi : i < clients.length) :
    (i, fetch clients[i]) ∈ canonicalWrites clients fetch := by
  rw [canonicalWrites]
  have henum : (i, clients[i]) ∈ clients.enum :=
    List.mk_mem_enum_iff_getElem?.mpr (List.getElem?_eq_getElem hi)
  exact List.mem_map.mpr ⟨(i, clients[i]), henum, rfl⟩

/-- The cycle result is independent of goroutine completion order: any
permutation of the canonical index-assigned writes fills the freshly
allocated nil array with exactly the i-th client's record at index i. -/
theorem applyWrites_perm_canonical {clients : List κ} {fetch : κ → α}
    {ws : List (Nat × α)} (h : ws.Perm (canonicalWrites clients fetch)) :
    applyWrites ws (List.replicate clients.length none) =
      clients.map (fun c => some (fetch c)) := by
  apply List.ext_getElem?
  intro i
  by_cases hi : i < clients.length
  · have hvmem : (i, fetch clients[i]) ∈ ws :=
      h.mem_iff.mpr (canonicalWrites_mem hi)
    have hall : ∀ w ∈ ws, w.1 = i → w.2 = fetch clients[i] := by
      intro w hw hwi
      rcases mem_canonicalWrites_val (h.subset hw) with ⟨c, hc, hv⟩
      rw [hwi, List.getElem?_eq_getElem hi] at hc
      rw [hv, Option.some_inj.mp hc]
    rw [applyWrites_getElem_of_mem ws _ i _ hvmem hall
      (by rw [List.length_replicate]; exact hi)]
    rw [List.getElem?_map, List.getElem?_eq_getElem hi]
    rfl
  · have h1 : (applyWrites ws (List.replicate clients.length none)).length ≤ i := by
      rw [applyWrites_length, List.length_replicate]
      omega
    have h2 : (clients.map (fun c => some (fetch c))).length ≤ i := by
      rw [List.length_map]
      omega
    rw [List.getElem?_eq_none h1, List.getElem?_eq_none h2]

theorem runOp_preserves_lengths (m : MonitorState κC κE κV) (op : MonOp κC κE κV)
    (h : kindLengthsMatch m) : kindLengthsMatch (runOp m op) := by
  cases op with
  | addC c =>
    obtain ⟨h1, h2, h3⟩ := h
    refine ⟨?_, h2, h3⟩
    simp only [runOp, addConsensusClient, List.length_append, List.length_singleton, h1]
  | addE c =>
    obtain ⟨h1, h2, h3⟩ := h
    refine ⟨h1, ?_, h3⟩
    simp only [runOp, addExecutionClient, List.length_append, List.length_singleton, h2]
  | addV c =>
    obtain ⟨h1, h2, h3⟩ := h
    refine ⟨h1, h2, ?_⟩
    simp only [runOp, addValidatorClient, List.length_append, List.length_singleton, h3]
  | cycle cancelled wsC wsE wsV =>
    cases cancelled with
    | true => exact h
    | false =>
      refine ⟨?_, ?_, ?_⟩ <;>
        simp only [runOp, updateAll, Bool.false_eq_true, if_neg (by trivial : ¬ False),
          applyWrites_length, List.length_replicate]

theorem runOps_preserves_lengths (ops : List (MonOp κC κE κV)) :
    ∀ m : MonitorState κC κE κV, kindLengthsMatch m → kindLengthsMatch (runOps m ops) := by
  induction ops with
  | nil => exact fun m h => h
  | cons op rest ih =>
    intro m h
    exact ih (runOp m op) (runOp_preserves_lengths m op h)

/-- C1: after any sequence of registrations and cycles starting from a
fresh monitor, every per-kind info array — both the one held inside the
monitor and the one `getNodeInfos` returns — has length exactly the number
of registered clients of that kind. -/
theorem claim_C1 (refreshInterval : Int) (ops : List (MonOp κC κE κV)) :
    kindLengthsMatch (runOps (newMonitor refreshInterval) ops) ∧
    (getNodeInfos (runOps (newMonitor refreshInterval) ops)).consensusInfos.length =
      (runOps (newMonitor refreshInterval) ops).consensusClients.length ∧
    (getNodeInfos (runOps (newMonitor refreshInterval) ops)).executionInfos.length =
      (runOps (newMonitor refreshInterval) ops).executionClients.length ∧
    (getNodeInfos (runOps (newMonitor refreshInterval) ops)).validatorInfos.length =
      (runOps (newMonitor refreshInterval) ops).validatorClients.length := by
  have h := runOps_preserves_lengths ops (newMonitor refreshInterval) ⟨rfl, rfl, rfl⟩
  exact ⟨h, h.1, h.2.1, h.2.2⟩

/-- C4: when the cycle is not cancelled and every goroutine completes its
fetch, in whatever order, the published per-kind array holds at position i
exactly the record fetched from the i-th registered client; a failure
outcome is just another record value, so one source's failure never
changes a sibling's slot and never aborts the cycle. -/
theorem claim_C4 (m : MonitorState κC κE κV)
    (fetchC : κC → ConsensusNodeInfo) (fetchE : κE → ExecutionNodeInfo)
    (fetchV : κV → ValidatorNodeInfo)
    (wsC : List (Nat × ConsensusNodeInfo)) (wsE : List (Nat × ExecutionNodeInfo))
    (wsV : List (Nat × ValidatorNodeInfo))
    (hC : wsC.Perm (canonicalWrites m.consensusClients fetchC))
    (hE : wsE.Perm (canonicalWrites m.executionClients fetchE))
    (hV : wsV.Perm (canonicalWrites m.validatorClients fetchV)) :
    (updateAll m false wsC wsE wsV).consensusInfos =
      m.consensusClients.map (fun c => some (fetchC c)) ∧
    (updateAll m false wsC wsE wsV).executionInfos =
      m.executionClients.map (fun c => some (fetchE c)) ∧
    (updateAll m false wsC wsE wsV).validatorInfos =
      m.validatorClients.map (fun c => some (fetchV c)) := by
  refine ⟨?_, ?_, ?_⟩ <;>
    simp only [updateAll, Bool.false_eq_true, if_neg (by trivial : ¬ False)]
  · exact applyWrites_perm_canonical hC
  · exact applyWrites_perm_canonical hE
  · exact applyWrites_perm_canonical hV

theorem claim_C4_witness :
    ([(1, witnessFetchC "beta"), (0, witnessFetchC "alpha")]).Perm
      (canonicalWrites witnessMonitor.consensusClients witnessFetchC) ∧
    (updateAll witnessMonitor false
        [(1, witnessFetchC "beta"), (0, witnessFetchC "alpha")] [] []).consensusInfos =
      witnessMonitor.consensusClients.map (fun c => some (witnessFetchC c)) := by
  refine ⟨by decide, ?_⟩
  exact (claim_C4 witnessMonitor witnessFetchC (fun _ => emptyExecutionNodeInfo)
    (fun _ => emptyValidatorNodeInfo) _ [] [] (by decide) (by decide) (by decide)).1

/-- C5: the update mailbox is one optional slot (the embedding of
`make(chan NodeUpdate, 1)`), and the publish step is the non-blocking
`trySend`: when the slot still holds an unconsumed update the old content
is kept and the new notification is dropped; only an empty slot receives
this cycle's update. -/
theorem claim_C5 (m : MonitorState κC κE κV)
    (wsC : List (Nat × ConsensusNodeInfo)) (wsE : List (Nat × ExecutionNodeInfo))
    (wsV : List (Nat × ValidatorNodeInfo)) :
    (∀ u, m.updateChan = some u →
      (updateAll m false wsC wsE wsV).updateChan = some u) ∧
    (m.updateChan = none →
      (updateAll m false wsC wsE wsV).updateChan =
        some ⟨applyWrites wsC (List.replicate m.consensusClients.length none),
              applyWrites wsE (List.replicate m.executionClients.length none),
              applyWrites wsV (List.replicate m.validatorClients.length none)⟩) := by
  constructor
  · intro u hu
    simp only [updateAll, Bool.false_eq_true, if_neg (by trivial : ¬ False), trySend, hu]
  · intro hn
    simp only [updateAll, Bool.false_eq_true, if_neg (by trivial : ¬ False), trySend, hn]

theorem claim_C5_witness :
    (updateAll
      (⟨["alpha"], [], [], 0, [some emptyConsensusNodeInfo], [], [],
        some ⟨[], [], []⟩⟩ : MonitorState String String String)
      false [(0, emptyConsensusNodeInfo)] [] []).updateChan =
      some (⟨[], [], []⟩ : NodeUpdate) := by
  exact (claim_C5
    (⟨["alpha"], [], [], 0, [some emptyConsensusNodeInfo], [], [],
      some ⟨[], [], []⟩⟩ : MonitorState String String String)
    [(0, emptyConsensusNodeInfo)] [] []).1 ⟨[], [], []⟩ rfl

theorem onOk_const (x : Except String β) (a : α) : onOk x (fun _ => a) a = a := by
  cases x <;> rfl

theorem onOkCons_const (x : Except String (List β)) (a : α) :
    onOkCons x (fun _ _ => a) a = a := by
  cases x with
  | error e => rfl
  | ok l => cases l <;> rfl

theorem onOk_lastError (x : Except String β) (f : β → ConsensusNodeInfo)
    (d : ConsensusNodeInfo) :
    (onOk x f d).lastError = onOk x (fun b => (f b).lastError) d.lastError := by
  cases x <;> rfl

theorem onOkCons_lastError (x : Except String (List β))
    (f : β → List β → ConsensusNodeInfo) (d : ConsensusNodeInfo) :
    (onOkCons x f d).lastError =
      onOkCons x (fun b rest => (f b rest).lastError) d.lastError := by
  cases x with
  | error e => rfl
  | ok l => cases l <;> rfl

theorem ite_lastError (c : Prop) [Decidable c] (a b : ConsensusNodeInfo) :
    (if c then a else b).lastError = if c then a.lastError else b.lastError := by
  split <;> rfl

theorem onOk_justifiedSlot (x : Except String β) (f : β → ConsensusNodeInfo)
    (d : ConsensusNodeInfo) :
    (onOk x f d).justifiedSlot = onOk x (fun b => (f b).justifiedSlot) d.justifiedSlot := by
  cases x <;> rfl

theorem onOkCons_justifiedSlot (x : Except String (List β))
    (f : β → List β → ConsensusNodeInfo) (d : ConsensusNodeInfo) :
    (onOkCons x f d).justifiedSlot =
      onOkCons x (fun b rest => (f b rest).justifiedSlot) d.justifiedSlot := by
  cases x with
  | error e => rfl
  | ok l => cases l <;> rfl

theorem ite_justifiedSlot (c : Prop) [Decidable c] (a b : ConsensusNodeInfo) :
    (if c then a else b).justifiedSlot =
      if c then a.justifiedSlot else b.justifiedSlot := by
  split <;> rfl

theorem onOk_finalizedSlot (x : Except String β) (f : β → ConsensusNodeInfo)
    (d : ConsensusNodeInfo) :
    (onOk x f d).finalizedSlot = onOk x (fun b => (f b).finalizedSlot) d.finalizedSlot := by
  cases x <;> rfl

theorem onOkCons_finalizedSlot (x : Except String (List β))
    (f : β → List β → ConsensusNodeInfo) (d : ConsensusNodeInfo) :
    (onOkCons x f d).finalizedSlot =
      onOkCons x (fun b rest => (f b rest).finalizedSlot) d.finalizedSlot := by
  cases x with
  | error e => rfl
  | ok l => cases l <;> rfl

theorem ite_finalizedSlot (c : Prop) [Decidable c] (a b : ConsensusNodeInfo) :
    (if c then a else b).finalizedSlot =
      if c then a.finalizedSlot else b.finalizedSlot := by
  split <;> rfl

/-- Every record `getNodeInfo` produces is either connected with no error
(the success path) or disconnected with the failing fetch's error
embedded. -/
theorem getNodeInfo_cases (name endpoint : String) (env : NodeEnv) :
    ((getNodeInfo name endpoint env).1.isConnected = true ∧
      (getNodeInfo name endpoint env).1.lastError = none) ∨
    ((getNodeInfo name endpoint env).1.isConnected = false ∧
      (getNodeInfo name endpoint env).1.lastError ≠ none) := by
  rw [getNodeInfo]
  cases hcc : getChainConfig env.genesis env.chainSpec with
  | error e => right; exact ⟨rfl, by simp⟩
  | ok cfg =>
    cases hs : env.syncing with
    | error e => right; exact ⟨rfl, by simp⟩
    | ok syn =>
      cases hf : env.finality with
      | error e => right; exact ⟨rfl, by simp⟩
      | ok fin =>
        left
        refine ⟨rfl, ?_⟩
        simp only [onOk_lastError, onOkCons_lastError, ite_lastError, onOk_const,
          onOkCons_const, ite_self, emptyConsensusNodeInfo]

/-- C7: whenever a record produced by `GetNodeInfo` carries a non-nil
`LastError`, its `IsConnected` flag is false. -/
theorem claim_C7 (name endpoint : String) (env : NodeEnv)
    (h : (getNodeInfo name endpoint env).1.lastError ≠ none) :
    (getNodeInfo name endpoint env).1.isConnected = false := by
  rcases getNodeInfo_cases name endpoint env with ⟨_, h2⟩ | ⟨h1, _⟩
  · exact absurd h2 h
  · exact h1

theorem claim_C7_witness :
    (getNodeInfo "nimbus" "http://localhost:5052" witnessEnvErr).1.lastError ≠ none ∧
    (getNodeInfo "nimbus" "http://localhost:5052" witnessEnvErr).1.isConnected = false :=
  ⟨by decide, claim_C7 "nimbus" "http://localhost:5052" witnessEnvErr (by decide)⟩

theorem getChainConfig_ok_pos {g : Except String String}
    {s : Except String (List (String × Option String))} {cfg : ChainConfig}
    (h : getChainConfig g s = Except.ok cfg) :
    0 < cfg.secondsPerSlot ∧ 0 < cfg.slotsPerEpoch := by
  rw [getChainConfig.eq_def] at h
  iterate 10 (try any_goals split at h)
  all_goals try exact Except.noConfusion h
  injection h with h2
  subst h2
  refine ⟨?_, ?_⟩ <;> (dsimp only; omega)

theorem epochSlots_no_wrap {e spe : Nat} (hspe : 0 < spe)
    (hle : e ≤ maxUint64 / spe) : e * spe < 2 ^ 64 := by
  have h1 := (Nat.le_div_iff_mul_le hspe).mp hle
  have h2 : maxUint64 < 2 ^ 64 := by norm_num [maxUint64]
  omega

/-- Values of the two slot fields on the success path: the guarded wrapped
product, or the untouched zero. -/
theorem getNodeInfo_slots (name endpoint : String) (env : NodeEnv)
    (cfg : ChainConfig) (syn : SyncingData) (fin : FinalityData)
    (hcc : getChainConfig env.genesis env.chainSpec = Except.ok cfg)
    (hs : env.syncing = Except.ok syn)
    (hf : env.finality = Except.ok fin) :
    (getNodeInfo name endpoint env).1.justifiedSlot =
      (if 0 < parseUint64 fin.currentJustified.epoch ∧
          parseUint64 fin.currentJustified.epoch ≤ maxUint64 / cfg.slotsPerEpoch
       then parseUint64 fin.currentJustified.epoch * cfg.slotsPerEpoch % 2 ^ 64 else 0) ∧
    (getNodeInfo name endpoint env).1.finalizedSlot =
      (if 0 < parseUint64 fin.finalized.epoch ∧
          parseUint64 fin.finalized.epoch ≤ maxUint64 / cfg.slotsPerEpoch
       then parseUint64 fin.finalized.epoch * cfg.slotsPerEpoch % 2 ^ 64 else 0) := by
  rw [getNodeInfo, hcc, hs, hf]
  constructor
  · simp only [onOk_justifiedSlot, onOkCons_justifiedSlot, ite_justifiedSlot,
      onOk_const, onOkCons_const, ite_self, emptyConsensusNodeInfo]
  · simp only [onOk_finalizedSlot, onOkCons_finalizedSlot, ite_finalizedSlot,
      onOk_const, onOkCons_const, ite_self, emptyConsensusNodeInfo]

/-- C9: on a cycle whose chain-config, syncing and finality fetches all
succeed, each parsed epoch is multiplied by `SlotsPerEpoch` exactly when
it is positive and at most `maxUint64 / SlotsPerEpoch` — a guard under
which the uint64 product cannot wrap — and otherwise the slot field is
silently left at its zero value; `SlotsPerEpoch` is positive because
`GetChainConfig` rejects zero. -/
theorem claim_C9 (name endpoint : String) (env : NodeEnv)
    (cfg : ChainConfig) (syn : SyncingData) (fin : FinalityData)
    (hcc : getChainConfig env.genesis env.chainSpec = Except.ok cfg)
    (hs : env.syncing = Except.ok syn)
    (hf : env.finality = Except.ok fin) :
    0 < cfg.slotsPerEpoch ∧
    (getNodeInfo name endpoint env).1.justifiedSlot =
      (if 0 < parseUint64 fin.currentJustified.epoch ∧
          parseUint64 fin.currentJustified.epoch ≤ maxUint64 / cfg.slotsPerEpoch
       then parseUint64 fin.currentJustified.epoch * cfg.slotsPerEpoch else 0) ∧
    (getNodeInfo name endpoint env).1.finalizedSlot =
      (if 0 < parseUint64 fin.finalized.epoch ∧
          parseUint64 fin.finalized.epoch ≤ maxUint64 / cfg.slotsPerEpoch
       then parseUint64 fin.finalized.epoch * cfg.slotsPerEpoch else 0) ∧
    (parseUint64 fin.currentJustified.epoch ≤ maxUint64 / cfg.slotsPerEpoch →
      parseUint64 fin.currentJustified.epoch * cfg.slotsPerEpoch < 2 ^ 64) ∧
    (parseUint64 fin.finalized.epoch ≤ maxUint64 / cfg.slotsPerEpoch →
      parseUint64 fin.finalized.epoch * cfg.slotsPerEpoch < 2 ^ 64) := by
  have hpos := (getChainConfig_ok_pos hcc).2
  have hslots := getNodeInfo_slots name endpoint env cfg syn fin hcc hs hf
  refine ⟨hpos, ?_, ?_, fun hle => epochSlots_no_wrap hpos hle,
    fun hle => epochSlots_no_wrap hpos hle⟩
  · rw [hslots.1]
    by_cases hg : 0 < parseUint64 fin.currentJustified.epoch ∧
        parseUint64 fin.currentJustified.epoch ≤ maxUint64 / cfg.slotsPerEpoch
    · rw [if_pos hg, if_pos hg, Nat.mod_eq_of_lt (epochSlots_no_wrap hpos hg.2)]
    · rw [if_neg hg, if_neg hg]
  · rw [hslots.2]
    by_cases hg : 0 < parseUint64 fin.finalized.epoch ∧
        parseUint64 fin.finalized.epoch ≤ maxUint64 / cfg.slotsPerEpoch
    · rw [if_pos hg, if_pos hg, Nat.mod_eq_of_lt (epochSlots_no_wrap hpos hg.2)]
    · rw [if_neg hg, if_neg hg]

theorem claim_C9_witness :
    getChainConfig witnessEnvOk.genesis witnessEnvOk.chainSpec =
      Except.ok witnessChainConfig ∧
    0 < witnessChainConfig.slotsPerEpoch ∧
    (getNodeInfo "nimbus" "http://localhost:5052" witnessEnvOk).1.justifiedSlot = 96 := by
  have h := claim_C9 "nimbus" "http://localhost:5052" witnessEnvOk witnessChainConfig
    witnessSyncing witnessFinality rfl rfl rfl
  refine ⟨rfl, h.1, ?_⟩
  rw [h.2.1]
  decide

end Watcheth
